import Mathlib

/-!
Shallow embedding of `testenv/parser.py` (spid-testenv2): HTTP request
parsers for the SAML Redirect and POST bindings, the validation pipeline
of `HTTPRequestDeserializer`, and the reflective XML-to-object builder
`SAMLTree`.  Python byte strings are modelled as `List Nat` (each entry a
byte value `< 256`), text as `String`, dictionaries and objects as
association lists preserving insertion order.
-/

namespace Testenv

/-! ## XML document model

An lxml element as the code observes it: its tag in Clark notation
(either a plain name or a name qualified by a namespace wrapped in
braces), its attributes in document order, its direct text (text before
the first child, `None` when absent, as lxml's `.text` exposes it) and
its child elements in document order. -/

/-- An XML element as exposed by lxml: tag (Clark notation), attributes,
direct text, children. -/
inductive XmlElem where
  | mk : String → List (String × String) → Option String → List XmlElem → XmlElem

/-- Tag of an element (Clark notation, possibly namespace-qualified). -/
def XmlElem.tag : XmlElem → String
  | .mk t _ _ _ => t

/-- Attributes of an element, in document order. -/
def XmlElem.attrib : XmlElem → List (String × String)
  | .mk _ a _ _ => a

/-- Direct text of an element (`.text` in lxml), `none` when absent. -/
def XmlElem.text : XmlElem → Option String
  | .mk _ _ tx _ => tx

/-- Child elements, in document order. -/
def XmlElem.children : XmlElem → List XmlElem
  | .mk _ _ _ cs => cs

/-- Opening brace character of Clark notation. -/
def lbrace : Char := Char.ofNat 123

/-- Closing brace character of Clark notation. -/
def rbrace : Char := Char.ofNat 125

/-- Model of `etree.QName(...).localname`: strips a namespace prefix
written in Clark notation, i.e. a leading brace-enclosed URI. -/
def localname (t : String) : String :=
  match t.data with
  | c :: rest =>
      if c = lbrace then String.mk ((rest.dropWhile (· ≠ rbrace)).drop 1)
      else t
  | [] => t

/-! ## SAMLTree: reflective binder (parser.py lines 170-192)

A Python object is a flat namespace: an insertion-ordered mapping from
attribute names to values.  `setattr` overwrites the value in place when
the name is already bound, otherwise appends.  `__init__` first binds
`self._xml_doc = xml_doc` into that same namespace; the later method
calls `self._bind_text()` and `self._bind_subtrees()` and their reads of
`self._xml_doc` look the name up on the instance first, so an XML
attribute whose lower-cased name is `_xml_doc`, `_bind_text` or
`_bind_subtrees` shadows them and the builder raises (`AttributeError`
on `.text`/`.iterchildren()` of a string, `TypeError` calling a string);
construction then produces no node, modelled as `none`. -/

/-- A Python value as stored on a `SAMLTree` object: a text value, the
`None` placed by `_bind_text` for absent text, the lxml element bound by
`__init__` as `_xml_doc`, or a nested `SAMLTree` object (itself a flat
namespace of bindings). -/
inductive PyVal where
  | str : String → PyVal
  | noneVal : PyVal
  | xmlDoc : XmlElem → PyVal
  | obj : List (String × PyVal) → PyVal

/-- Model of Python `str.lower()` as the code applies it to XML names
(ASCII case folding, character by character). -/
def pyLower (s : String) : String :=
  String.mk (s.data.map Char.toLower)

/-- Python `setattr` on an object's namespace: overwrite in place when the
name is bound, append otherwise. -/
def setattrNs (ns : List (String × PyVal)) (k : String) (v : PyVal) :
    List (String × PyVal) :=
  match ns with
  | [] => [(k, v)]
  | (k0, v0) :: rest => if k0 = k then (k, v) :: rest else (k0, v0) :: setattrNs rest k v

/-- Lookup in an object's namespace by name. -/
def getattrNs (k : String) : List (String × PyVal) → Option PyVal
  | [] => none
  | (k0, v) :: rest => if k0 = k then some v else getattrNs k rest

/-- Attribute lookup on a `SAMLTree` object (Python `getattr`): the value
bound to the name, when the value is an object namespace. -/
def lookupNs (k : String) : PyVal → Option PyVal
  | .obj ns => getattrNs k ns
  | _ => none

/-- Value bound by `_bind_text`: the element's direct text or `None`. -/
def textVal : Option String → PyVal
  | some t => .str t
  | none => .noneVal

/-- Model of `SAMLTree._bind_attributes`: `setattr` each attribute's
value under its lower-cased name, in attribute order. -/
def bindAttributes (ns : List (String × PyVal)) (attrib : List (String × String)) :
    List (String × PyVal) :=
  attrib.foldl (fun a p => setattrNs a (pyLower p.1) (PyVal.str p.2)) ns

/-- Whether a namespace lookup produced the element bound as `_xml_doc`
(rather than a string an attribute overwrote it with): reading `.text`
or `.iterchildren()` off anything else raises `AttributeError`. -/
def isXmlDocVal : Option PyVal → Bool
  | some (PyVal.xmlDoc _) => true
  | _ => false

/-- Namespace of a `SAMLTree` under construction after
`self._xml_doc = xml_doc`, `_bind_tag` and `_bind_attributes` have run:
the element bound as `_xml_doc`, then `tag` (the local name, case
preserved), then each attribute under its lower-cased name.  `_bind_tag`
and its `_xml_doc` read run before any attribute is bound, so they
cannot be shadowed. -/
def nsAfterAttributes (e : XmlElem) : List (String × PyVal) :=
  bindAttributes
    (setattrNs [("_xml_doc", PyVal.xmlDoc e)] "tag" (PyVal.str (localname e.tag)))
    e.attrib

/-- Namespace after `_bind_text` has also run: `text` bound to the
element's direct text or `None`.  Only attributes write string values,
so whenever the `_xml_doc` binding is still an element it is the
original one and its text is the element's own. -/
def nsAfterText (e : XmlElem) : List (String × PyVal) :=
  setattrNs (nsAfterAttributes e) "text" (textVal e.text)

mutual

/-- Model of `SAMLTree.__init__`: build the namespace through
`nsAfterAttributes` and `nsAfterText`, then bind each child subtree
under its lower-cased local name.  The calls `self._bind_text()` and
`self._bind_subtrees()` and their reads of `self._xml_doc` look the
names up on the instance first, so an attribute that overwrote
`_bind_text` or `_bind_subtrees` raises `TypeError` (a string is not
callable) and one that overwrote `_xml_doc` raises `AttributeError`
(`.text`/`.iterchildren()` on a string); the builder then produces no
node, modelled as `none`. -/
def samlTree : XmlElem → Option PyVal
  | e@(.mk _ _ _ children) =>
      if (getattrNs "_bind_text" (nsAfterAttributes e)).isSome then none
      else if isXmlDocVal (getattrNs "_xml_doc" (nsAfterAttributes e)) then
        if (getattrNs "_bind_subtrees" (nsAfterText e)).isSome then none
        else if isXmlDocVal (getattrNs "_xml_doc" (nsAfterText e)) then
          (bindSubtrees (nsAfterText e) children).map PyVal.obj
        else none
      else none

/-- Model of `SAMLTree._bind_subtrees`' loop: build each child's subtree
(a crash in the recursive construction propagates) and `setattr` it
under the child's lower-cased local name, in document order. -/
def bindSubtrees (ns : List (String × PyVal)) :
    List XmlElem → Option (List (String × PyVal))
  | [] => some ns
  | c :: cs =>
      match samlTree c with
      | some sub => bindSubtrees (setattrNs ns (pyLower (localname c.tag)) sub) cs
      | none => none

end

/-! ## Validation pipeline (parser.py lines 126-167) -/

/-- A `ValidationError` carries an ordered sequence of detail messages. -/
structure ValidationError where
  details : List String

/-- Outcome of `validator.validate(request)`: return normally, raise a
non-blocking `ValidationError`, or raise the blocking subclass
`XMLFormatValidationError`.  Modelled from the spec: the exception classes
live in `testenv/exceptions.py`, which is outside the given sources; the
spec describes them as an error with ordered `details` and a distinct
blocking kind. -/
inductive ValidationOutcome where
  | ok : ValidationOutcome
  | validationError : ValidationError → ValidationOutcome
  | xmlFormatValidationError : ValidationError → ValidationOutcome

/-- Details contributed by one validator outcome (empty when it returns
normally). -/
def detailsOf : ValidationOutcome → List String
  | .ok => []
  | .validationError e => e.details
  | .xmlFormatValidationError e => e.details

/-- Whether an outcome is the blocking `XMLFormatValidationError`. -/
def isBlocking : ValidationOutcome → Prop
  | .xmlFormatValidationError _ => True
  | _ => False

instance (o : ValidationOutcome) : Decidable (isBlocking o) := by
  cases o <;> simp [isBlocking] <;> infer_instance

/-- Model of `_run_validators` together with `_run_validator`,
`_handle_blocking_error`, `_handle_nonblocking_error` and the
`StopValidation` catch in `_validate`: run validators in order; a
non-blocking error appends its details and the loop continues; a blocking
error appends its details and the loop stops. -/
def runValidators {α : Type} (vs : List (α → ValidationOutcome)) (r : α)
    (acc : List String) : List String :=
  match vs with
  | [] => acc
  | v :: rest =>
      match v r with
      | .ok => runValidators rest r acc
      | .validationError e => runValidators rest r (acc ++ e.details)
      | .xmlFormatValidationError e => acc ++ e.details

/-- Model of `_validate`: the accumulated `_validation_errors` after the
loop, starting from the empty accumulator. -/
def validate {α : Type} (vs : List (α → ValidationOutcome)) (r : α) : List String :=
  runValidators vs r []

/-- The aggregate error raised by `deserialize`, carrying every
accumulated detail in encounter order.  Modelled from the spec for the
class in `testenv/exceptions.py`. -/
structure DeserializationError where
  details : List String

/-- Model of `HTTPRequestDeserializer.deserialize`: run the validators;
if any details accumulated, raise `DeserializationError` with them;
otherwise parse `request.saml_request` (via the injected `fromstring`
XML parser, standing for `objectify.fromstring`) and build a `SAMLTree`.
A builder crash (an `AttributeError`/`TypeError` escaping `SAMLTree`,
modelled by `samlTree` returning `none`) propagates uncaught, modelled
as the outer `none`.  The deserializer is duck-typed over the request
shape, captured by the `saml_request` projection. -/
def deserialize {α : Type} (vs : List (α → ValidationOutcome))
    (fromstring : String → XmlElem) (saml_request : α → String) (r : α) :
    Option (Except DeserializationError PyVal) :=
  let errs := validate vs r
  if errs = [] then (samlTree (fromstring (saml_request r))).map Except.ok
  else some (.error ⟨errs⟩)

/-! ## Base64 codec

Model of Python's `base64.b64decode` with default `validate=False`,
i.e. non-strict `binascii.a2b_base64`: a left-to-right scan keeping a
quad position (0-3), the pending high bits of the current group, and a
count of consecutive pads.  Characters outside the alphabet are skipped;
a pad at quad position 0 or 1 is ignored; a pad sequence completing a
group (one pad at position 3, or a second consecutive pad at position 2)
ends decoding, ignoring everything after it; input ending with a partial
group (position 1, 2 with at most one pad, or 3) is an error.  A byte is
emitted on each of the transitions 1→2, 2→3 and 3→0.  The encoder models
`base64.b64encode` (external standard-library code, used only to state
round-trip properties). -/

/-- Character of the standard base64 alphabet at index `n < 64`. -/
def b64Char (n : Nat) : Char :=
  if n < 26 then Char.ofNat (65 + n)
  else if n < 52 then Char.ofNat (97 + (n - 26))
  else if n < 62 then Char.ofNat (48 + (n - 52))
  else if n = 62 then '+'
  else '/'

/-- Index of a character in the standard base64 alphabet. -/
def b64Index (c : Char) : Option Nat :=
  if 65 ≤ c.toNat ∧ c.toNat ≤ 90 then some (c.toNat - 65)
  else if 97 ≤ c.toNat ∧ c.toNat ≤ 122 then some (26 + (c.toNat - 97))
  else if 48 ≤ c.toNat ∧ c.toNat ≤ 57 then some (52 + (c.toNat - 48))
  else if c = '+' then some 62
  else if c = '/' then some 63
  else none

/-- Base64 encoder over byte values (standard-library
`base64.b64encode`, modelled for round-trip statements). -/
def b64Encode : List Nat → List Char
  | [] => []
  | [b1] => [b64Char (b1 / 4), b64Char (b1 % 4 * 16), '=', '=']
  | [b1, b2] => [b64Char (b1 / 4), b64Char (b1 % 4 * 16 + b2 / 16), b64Char (b2 % 16 * 4), '=']
  | b1 :: b2 :: b3 :: rest =>
      b64Char (b1 / 4) :: b64Char (b1 % 4 * 16 + b2 / 16) ::
        b64Char (b2 % 16 * 4 + b3 / 64) :: b64Char (b3 % 64) :: b64Encode rest

/-- The scanning loop of non-strict `binascii.a2b_base64`: `quadPos` is
the position within the current group, `leftchar` its pending high bits,
`pads` the count of consecutive pads seen at positions 2-3, `acc` the
bytes emitted so far in reverse.  Foreign characters are skipped; a pad
at position 0 or 1 is ignored; a pad making `quadPos + pads` reach 4
ends decoding with the bytes emitted so far; a partial group left at the
end of input is an error. -/
def a2bBase64 (chars : List Char) (quadPos leftchar pads : Nat) (acc : List Nat) :
    Option (List Nat) :=
  match chars with
  | [] => if quadPos = 0 then some acc.reverse else none
  | c :: rest =>
      if c = '=' then
        if 2 ≤ quadPos then
          if 4 ≤ quadPos + (pads + 1) then some acc.reverse
          else a2bBase64 rest quadPos leftchar (pads + 1) acc
        else a2bBase64 rest quadPos leftchar pads acc
      else
        match b64Index c with
        | none => a2bBase64 rest quadPos leftchar pads acc
        | some v =>
            match quadPos with
            | 0 => a2bBase64 rest 1 v 0 acc
            | 1 => a2bBase64 rest 2 (v % 16) 0 ((leftchar * 4 + v / 16) :: acc)
            | 2 => a2bBase64 rest 3 (v % 4) 0 ((leftchar * 16 + v / 4) :: acc)
            | _ => a2bBase64 rest 0 0 0 ((leftchar * 64 + v) :: acc)

/-- Model of `base64.b64decode` (default `validate=False`) on text
input: the non-strict `a2b_base64` scan from the initial state. -/
def b64decode (s : String) : Option (List Nat) :=
  a2bBase64 s.data 0 0 0 []

/-! ## Raw DEFLATE (stored blocks)

Model of `zlib.decompress(data, -15)` restricted to streams of stored
(uncompressed) blocks: each block is a header byte whose low bit is
BFINAL and next two bits are BTYPE (which must be 0 for a stored block;
compressed block types are outside this model and fail), then `LEN` and
`NLEN` as little-endian 16-bit values with `NLEN` the one's complement
of `LEN`, then `LEN` literal bytes.  Data after the final block is
ignored, as `zlib.decompress` ignores unconsumed trailing input. -/

/-- Parse a sequence of stored DEFLATE blocks; the fuel bounds the number
of blocks and exceeds any real block count when set to the input length. -/
def inflateBlocks : Nat → List Nat → Option (List Nat)
  | 0, _ => none
  | fuel + 1, hdr :: l1 :: l2 :: n1 :: n2 :: rest =>
      if hdr / 2 % 4 = 0 then
        if l1 + 256 * l2 + (n1 + 256 * n2) = 65535 then
          if l1 + 256 * l2 ≤ rest.length then
            if hdr % 2 = 1 then some (rest.take (l1 + 256 * l2))
            else
              (inflateBlocks fuel (rest.drop (l1 + 256 * l2))).map
                (fun tail => rest.take (l1 + 256 * l2) ++ tail)
          else none
        else none
      else none
  | _ + 1, _ => none

/-- Model of `zlib.decompress(data, -15)` on stored-block streams. -/
def inflateRaw (data : List Nat) : Option (List Nat) :=
  inflateBlocks (data.length + 1) data

/-- Modelled from the spec: raw-deflate compression (`zlib.compress`
with a raw window is external standard-library code).  Emits valid
stored (uncompressed) DEFLATE blocks, one byte per block, the last block
flagged final; the empty input becomes a single empty final block. -/
def deflateStored : List Nat → List Nat
  | [] => [1, 0, 0, 255, 255]
  | [b] => [1, 1, 0, 254, 255, b]
  | b :: rest => 0 :: 1 :: 0 :: 254 :: 255 :: b :: deflateStored rest

/-! ## UTF-8 codec

Model of Python `bytes.decode()` (strict UTF-8): shortest-form coding is
required, surrogate code points and code points beyond U+10FFFF are
rejected, as are truncated sequences and stray continuation bytes.  The
encoder models `str.encode()` for round-trip statements. -/

/-- UTF-8 encoding of a single code point. -/
def utf8EncodeChar (c : Nat) : List Nat :=
  if c < 128 then [c]
  else if c < 2048 then [192 + c / 64, 128 + c % 64]
  else if c < 65536 then [224 + c / 4096, 128 + c / 64 % 64, 128 + c % 64]
  else [240 + c / 262144, 128 + c / 4096 % 64, 128 + c / 64 % 64, 128 + c % 64]

/-- UTF-8 encoding of a string (Python `str.encode()`), as byte values. -/
def utf8Encode (s : String) : List Nat :=
  s.data.foldr (fun c acc => utf8EncodeChar c.toNat ++ acc) []

/-- Strict UTF-8 decoding of a byte sequence into code points: rejects
non-shortest forms, surrogates, out-of-range code points, stray
continuation bytes and truncated sequences. -/
def utf8DecodeList : List Nat → Option (List Nat)
  | [] => some []
  | b :: rest =>
      if b < 128 then (utf8DecodeList rest).map (b :: ·)
      else if b < 192 then none
      else
        match rest with
        | [] => none
        | b1 :: rest1 =>
            if b < 224 then
              if 128 ≤ b1 ∧ b1 < 192 then
                if 128 ≤ (b - 192) * 64 + (b1 - 128) then
                  (utf8DecodeList rest1).map (((b - 192) * 64 + (b1 - 128)) :: ·)
                else none
              else none
            else
              match rest1 with
              | [] => none
              | b2 :: rest2 =>
                  if b < 240 then
                    if (128 ≤ b1 ∧ b1 < 192) ∧ (128 ≤ b2 ∧ b2 < 192) then
                      if 2048 ≤ (b - 224) * 4096 + (b1 - 128) * 64 + (b2 - 128) ∧
                          ¬(55296 ≤ (b - 224) * 4096 + (b1 - 128) * 64 + (b2 - 128) ∧
                            (b - 224) * 4096 + (b1 - 128) * 64 + (b2 - 128) ≤ 57343) then
                        (utf8DecodeList rest2).map
                          (((b - 224) * 4096 + (b1 - 128) * 64 + (b2 - 128)) :: ·)
                      else none
                    else none
                  else
                    match rest2 with
                    | [] => none
                    | b3 :: rest3 =>
                        if b < 248 then
                          if (128 ≤ b1 ∧ b1 < 192) ∧ (128 ≤ b2 ∧ b2 < 192) ∧
                              (128 ≤ b3 ∧ b3 < 192) then
                            if 65536 ≤ (b - 240) * 262144 + (b1 - 128) * 4096 +
                                  (b2 - 128) * 64 + (b3 - 128) ∧
                                (b - 240) * 262144 + (b1 - 128) * 4096 + (b2 - 128) * 64 +
                                  (b3 - 128) < 1114112 then
                              (utf8DecodeList rest3).map
                                (((b - 240) * 262144 + (b1 - 128) * 4096 + (b2 - 128) * 64 +
                                  (b3 - 128)) :: ·)
                            else none
                          else none
                        else none

/-- Model of Python `bytes.decode()`: strict UTF-8 decoding into text. -/
def utf8Decode (bytes : List Nat) : Option String :=
  (utf8DecodeList bytes).map (fun cps => String.mk (cps.map Char.ofNat))

/-! ## Binding parsers (parser.py lines 17-123)

`RequestParserError` is raised by `_fail` with one of two message shapes,
distinguished here as constructors carrying the field name they embed:
`missingField k` stands for the message naming a datum absent from the
request, raised by `_extract`; `decodeError f` stands for the message
naming an element that could not be decoded, raised by the decode
helpers.  Key/value input sources (query string, form) are
insertion-ordered mappings, modelled as association lists. -/

/-- Model of `HTTPRedirectRequestParser._convert_saml_request`:
`b64decode`, then `zlib.decompress(..., -15)`, then `.decode()`; `none`
as soon as any sub-step fails. -/
def convert_saml_request_redirect (s : String) : Option String :=
  (b64decode s).bind fun raw => (inflateRaw raw).bind fun inflated => utf8Decode inflated

/-- Flat concatenation of the details each validator in a list would
contribute on a given request, in list order. -/
def detailsJoin {α : Type} (vs : List (α → ValidationOutcome)) (r : α) : List String :=
  vs.foldr (fun v acc => detailsOf (v r) ++ acc) []

/-- Non-blocking validator contributing two details, for witnesses. -/
def vA : Unit → ValidationOutcome := fun _ => .validationError ⟨["a1", "a2"]⟩

/-- Blocking validator contributing one detail, for witnesses. -/
def vB : Unit → ValidationOutcome := fun _ => .xmlFormatValidationError ⟨["b1"]⟩

/-- Non-blocking validator contributing three details, for witnesses. -/
def vC : Unit → ValidationOutcome := fun _ => .validationError ⟨["c1", "c2", "c3"]⟩

/-- Trivial XML parse result used to instantiate the injected
`fromstring` in witnesses. -/
def constElem : String → XmlElem := fun _ => XmlElem.mk "Response" [] none []

/-- Trivial `saml_request` projection for a unit request, for witnesses. -/
def constSaml : Unit → String := fun _ => "<x/>"

/-- The object the builder produces from `constElem`'s element, for
witnesses. -/
def responseBuilt : PyVal :=
  .obj [("_xml_doc", .xmlDoc (.mk "Response" [] none [])), ("tag", .str "Response"),
    ("text", .noneVal)]

/-- Non-blocking validator with empty details, for witnesses. -/
def vEmptyNb : Unit → ValidationOutcome := fun _ => .validationError ⟨[]⟩

/-- Blocking validator with empty details, for witnesses. -/
def vEmptyBl : Unit → ValidationOutcome := fun _ => .xmlFormatValidationError ⟨[]⟩

theorem detailsJoin_nil {α : Type} (r : α) : detailsJoin [] r = [] := rfl

theorem detailsJoin_cons {α : Type} (v : α → ValidationOutcome)
    (vs : List (α → ValidationOutcome)) (r : α) :
    detailsJoin (v :: vs) r = detailsOf (v r) ++ detailsJoin vs r := rfl

theorem runValidators_cons {α : Type} (v : α → ValidationOutcome)
    (vs : List (α → ValidationOutcome)) (r : α) (acc : List String) :
    runValidators (v :: vs) r acc =
      match v r with
      | .ok => runValidators vs r acc
      | .validationError e => runValidators vs r (acc ++ e.details)
      | .xmlFormatValidationError e => acc ++ e.details := rfl

/-- With no blocking outcome in the list, the loop is exhausted and the
accumulator collects every validator's details in list order. -/
theorem runValidators_nonblocking {α : Type} (vs : List (α → ValidationOutcome)) (r : α)
    (acc : List String) (h : ∀ v ∈ vs, ¬ isBlocking (v r)) :
    runValidators vs r acc = acc ++ detailsJoin vs r := by
  induction vs generalizing acc with
  | nil => simp [runValidators, detailsJoin]
  | cons v rest ih =>
      have hv := h v (List.mem_cons_self v rest)
      cases hvr : v r with
      | ok =>
          rw [runValidators_cons, hvr, detailsJoin_cons, hvr,
            ih acc (fun w hw => h w (List.mem_cons_of_mem v hw))]
          simp [detailsOf]
      | validationError e =>
          simp only [runValidators_cons, hvr, detailsJoin_cons, detailsOf]
          rw [ih (acc ++ e.details) (fun w hw => h w (List.mem_cons_of_mem v hw))]
          simp
      | xmlFormatValidationError e =>
          rw [hvr] at hv
          exact absurd trivial hv

/-- A prefix of non-blocking validators followed by a blocking one: the
accumulator collects the prefix's details then the blocker's details, and
the rest of the list never contributes. -/
theorem runValidators_blocking {α : Type} (pre : List (α → ValidationOutcome))
    (b : α → ValidationOutcome) (post : List (α → ValidationOutcome)) (r : α)
    (acc : List String) (hpre : ∀ v ∈ pre, ¬ isBlocking (v r)) (hb : isBlocking (b r)) :
    runValidators (pre ++ b :: post) r acc = acc ++ detailsJoin pre r ++ detailsOf (b r) := by
  induction pre generalizing acc with
  | nil =>
      cases hbr : b r with
      | ok => rw [hbr] at hb; exact absurd hb not_false
      | validationError e => rw [hbr] at hb; exact absurd hb not_false
      | xmlFormatValidationError e =>
          simp only [List.nil_append, runValidators_cons, hbr, detailsJoin_nil, detailsOf,
            List.append_nil]
  | cons v rest ih =>
      have hv := hpre v (List.mem_cons_self v rest)
      cases hvr : v r with
      | ok =>
          rw [List.cons_append, runValidators_cons, hvr, detailsJoin_cons, hvr,
            ih acc (fun w hw => hpre w (List.mem_cons_of_mem v hw))]
          simp [detailsOf]
      | validationError e =>
          simp only [List.cons_append, runValidators_cons, hvr, detailsJoin_cons, detailsOf]
          rw [ih (acc ++ e.details) (fun w hw => hpre w (List.mem_cons_of_mem v hw))]
          simp [detailsOf]
      | xmlFormatValidationError e =>
          rw [hvr] at hv
          exact absurd trivial hv

/-- When every validator's outcome carries no details, the accumulator is
returned unchanged, however the loop terminates. -/
theorem runValidators_all_empty_details {α : Type} (vs : List (α → ValidationOutcome))
    (r : α) (acc : List String) (h : ∀ v ∈ vs, detailsOf (v r) = []) :
    runValidators vs r acc = acc := by
  induction vs generalizing acc with
  | nil => rfl
  | cons v rest ih =>
      have hv := h v (List.mem_cons_self v rest)
      cases hvr : v r with
      | ok => rw [runValidators_cons, hvr]; exact ih acc (fun w hw => h w (List.mem_cons_of_mem v hw))
      | validationError e =>
          rw [hvr] at hv
          simp only [detailsOf] at hv
          simp only [runValidators_cons, hvr, hv, List.append_nil]
          exact ih acc (fun w hw => h w (List.mem_cons_of_mem v hw))
      | xmlFormatValidationError e =>
          rw [hvr] at hv
          simp only [detailsOf] at hv
          simp only [runValidators_cons, hvr, hv, List.append_nil]

/-! ## Claim theorems: validation pipeline -/

/-- Claim C1: the pipeline invokes validators in list order; a
non-blocking error has its details appended and iteration continues, a
blocking error has its details appended and iteration terminates at once,
so validators after the blocking one never contribute — the accumulated
details are exactly those of the non-blocking prefix followed by the
blocker's, for every continuation of the list. -/
theorem pipeline_order_blocking_stops {α : Type} (r : α) :
    (∀ vs : List (α → ValidationOutcome), (∀ v ∈ vs, ¬ isBlocking (v r)) →
        validate vs r = detailsJoin vs r) ∧
    (∀ pre : List (α → ValidationOutcome), ∀ b : α → ValidationOutcome,
      ∀ post : List (α → ValidationOutcome),
        (∀ v ∈ pre, ¬ isBlocking (v r)) → isBlocking (b r) →
        validate (pre ++ b :: post) r = detailsJoin pre r ++ detailsOf (b r)) := by
  constructor
  · intro vs h
    have := runValidators_nonblocking vs r [] h
    simpa [validate] using this
  · intro pre b post hpre hb
    have := runValidators_blocking pre b post r [] hpre hb
    simpa [validate] using this

theorem pipeline_order_blocking_stops_witness :
    validate [vA, vB, vC] () = ["a1", "a2", "b1"] := by
  have h := (pipeline_order_blocking_stops ()).2 [vA] vB [vC]
    (by intro v hv; simp only [List.mem_singleton] at hv; subst hv; simp [vA, isBlocking])
    (by simp [vB, isBlocking])
  simpa [vA, vB, detailsJoin, detailsOf] using h

/-- Claim C2: `deserialize` fails with the aggregate error exactly when
the accumulated details are non-empty after the validator loop, carrying
every accumulated detail in encounter order; with an empty accumulator
(including the empty validator list) it parses `request.saml_request`
and returns the resulting tree (a builder crash propagating instead when
the reflective construction raises).  Two one-detail non-blocking
validators A then B yield the aggregate `[A's detail, B's detail]` in
order. -/
theorem deserialize_gate {α : Type} (vs : List (α → ValidationOutcome))
    (fromstring : String → XmlElem) (saml_request : α → String) (r : α) :
    (validate vs r ≠ [] →
        deserialize vs fromstring saml_request r = some (.error ⟨validate vs r⟩)) ∧
    (validate vs r = [] → ∀ t, samlTree (fromstring (saml_request r)) = some t →
        deserialize vs fromstring saml_request r = some (.ok t)) ∧
    (∀ dA dB : String,
        deserialize [fun _ => .validationError ⟨[dA]⟩, fun _ => .validationError ⟨[dB]⟩]
          fromstring saml_request r = some (.error ⟨[dA, dB]⟩)) := by
  refine ⟨fun h => ?_, fun h t ht => ?_, fun dA dB => ?_⟩
  · simp [deserialize, h]
  · simp [deserialize, h, ht]
  · have hval :
        validate [fun _ : α => ValidationOutcome.validationError ⟨[dA]⟩,
          fun _ => ValidationOutcome.validationError ⟨[dB]⟩] r = [dA, dB] := by
      simp [validate, runValidators]
    simp [deserialize, hval]

theorem deserialize_gate_witness :
    validate [vA] () ≠ [] ∧
    deserialize [vA] constElem constSaml () = some (.error ⟨["a1", "a2"]⟩) ∧
    samlTree (constElem "<x/>") = some responseBuilt ∧
    deserialize ([] : List (Unit → ValidationOutcome)) constElem constSaml () =
      some (.ok responseBuilt) :=
  ⟨by decide,
    (deserialize_gate [vA] constElem constSaml ()).1 (by decide),
    rfl,
    (deserialize_gate [] constElem constSaml ()).2.1 rfl responseBuilt rfl⟩

/-- Claim C10: the pipeline accumulates individual detail messages into
one flat sequence, so an error with empty details contributes nothing;
when every validator's outcome carries empty details (blocking or not),
the accumulator stays empty and `deserialize` succeeds with the tree as
if no validator had failed. -/
theorem empty_details_contribute_nothing {α : Type} (fromstring : String → XmlElem)
    (saml_request : α → String) (r : α) :
    (∀ v : α → ValidationOutcome, ∀ rest : List (α → ValidationOutcome),
        ¬ isBlocking (v r) → detailsOf (v r) = [] →
        validate (v :: rest) r = validate rest r) ∧
    (∀ vs : List (α → ValidationOutcome), (∀ v ∈ vs, detailsOf (v r) = []) →
        ∀ t, samlTree (fromstring (saml_request r)) = some t →
        deserialize vs fromstring saml_request r = some (.ok t)) := by
  constructor
  · intro v rest hnb hd
    cases hvr : v r with
    | ok => simp [validate, runValidators_cons, hvr]
    | validationError e =>
        rw [hvr] at hd
        simp only [detailsOf] at hd
        simp [validate, runValidators_cons, hvr, hd]
    | xmlFormatValidationError e =>
        rw [hvr] at hnb
        exact absurd trivial hnb
  · intro vs h t ht
    have hval : validate vs r = [] := runValidators_all_empty_details vs r [] h
    simp [deserialize, hval, ht]

theorem empty_details_contribute_nothing_witness :
    samlTree (constElem "<x/>") = some responseBuilt ∧
    deserialize [vEmptyNb, vEmptyBl] constElem constSaml () = some (.ok responseBuilt) :=
  ⟨rfl, (empty_details_contribute_nothing constElem constSaml ()).2 [vEmptyNb, vEmptyBl]
    (by decide) responseBuilt rfl⟩


/-! ## SAMLTree lemmas -/

/-- Claim C9: the binder writes `_xml_doc`, `tag`, attributes, `text`
and children into one flat namespace in that order, so later bindings
silently replace earlier ones: an attribute lower-casing to `tag`
replaces the local name; a child named `tag`, `text` or like an
attribute replaces that binding (children take final precedence); the
four fields are not always distinctly exposed. -/
theorem flat_namespace_collisions :
    (samlTree (.mk "Root" [("Tag", "1")] none [])).bind (lookupNs "tag") =
      some (.str "1") ∧
    (samlTree (.mk "Root" [] none [.mk "Tag" [] (some "s") []])).bind (lookupNs "tag") =
      samlTree (.mk "Tag" [] (some "s") []) ∧
    (samlTree (.mk "Root" [] (some "T") [.mk "Text" [] (some "u") []])).bind
        (lookupNs "text") =
      samlTree (.mk "Text" [] (some "u") []) ∧
    (samlTree (.mk "Root" [("x", "1")] none [.mk "X" [] none []])).bind (lookupNs "x") =
      samlTree (.mk "X" [] none []) ∧
    (samlTree (.mk "Root" [("Tag", "1")] none [.mk "Tag" [] none []])).bind
        (lookupNs "tag") =
      samlTree (.mk "Tag" [] none []) :=
  ⟨rfl, rfl, rfl, rfl, rfl⟩

/-! ## Claim theorems: binding extraction -/

theorem b64Index_b64Char : ∀ n, n < 64 → b64Index (b64Char n) = some n := by decide

theorem b64Char_ne_pad : ∀ n, n < 64 → b64Char n ≠ '=' := by decide

theorem a2bBase64_nil (quadPos leftchar pads : Nat) (acc : List Nat) :
    a2bBase64 [] quadPos leftchar pads acc =
      if quadPos = 0 then some acc.reverse else none := rfl

/-- One step of the scan on a pad character. -/
theorem a2bBase64_pad (rest : List Char) (quadPos leftchar pads : Nat) (acc : List Nat) :
    a2bBase64 ('=' :: rest) quadPos leftchar pads acc =
      if 2 ≤ quadPos then
        if 4 ≤ quadPos + (pads + 1) then some acc.reverse
        else a2bBase64 rest quadPos leftchar (pads + 1) acc
      else a2bBase64 rest quadPos leftchar pads acc := by
  rw [a2bBase64.eq_def]
  simp only [if_true, eq_self_iff_true]

/-- One step of the scan on an alphabet character. -/
theorem a2bBase64_data (c : Char) (v : Nat) (hv : b64Index c = some v) (hne : c ≠ '=')
    (rest : List Char) (quadPos leftchar pads : Nat) (acc : List Nat) :
    a2bBase64 (c :: rest) quadPos leftchar pads acc =
      match quadPos with
      | 0 => a2bBase64 rest 1 v 0 acc
      | 1 => a2bBase64 rest 2 (v % 16) 0 ((leftchar * 4 + v / 16) :: acc)
      | 2 => a2bBase64 rest 3 (v % 4) 0 ((leftchar * 16 + v / 4) :: acc)
      | _ => a2bBase64 rest 0 0 0 ((leftchar * 64 + v) :: acc) := by
  rw [a2bBase64.eq_def]
  simp only [if_neg hne, hv]

/-- The scan decodes an encoder output back to the input bytes appended
to whatever was already emitted. -/
theorem a2bBase64_b64Encode : ∀ (bs : List Nat), (∀ b ∈ bs, b < 256) →
    ∀ acc : List Nat, a2bBase64 (b64Encode bs) 0 0 0 acc = some (acc.reverse ++ bs)
  | [] => by
      intro _ acc
      show a2bBase64 [] 0 0 0 acc = some (acc.reverse ++ [])
      simp [a2bBase64_nil]
  | [b1] => by
      intro h acc
      have hb1 : b1 < 256 := h b1 (by simp)
      have e1 := b64Index_b64Char (b1 / 4) (by omega)
      have e2 := b64Index_b64Char (b1 % 4 * 16) (by omega)
      have n1 := b64Char_ne_pad (b1 / 4) (by omega)
      have n2 := b64Char_ne_pad (b1 % 4 * 16) (by omega)
      show a2bBase64 [b64Char (b1 / 4), b64Char (b1 % 4 * 16), '=', '='] 0 0 0 acc =
        some (acc.reverse ++ [b1])
      rw [a2bBase64_data _ _ e1 n1]
      simp only []
      rw [a2bBase64_data _ _ e2 n2]
      simp only []
      rw [a2bBase64_pad, if_pos (by omega), if_neg (by omega), a2bBase64_pad,
        if_pos (by omega), if_pos (by omega)]
      have hx : b1 / 4 * 4 + b1 % 4 * 16 / 16 = b1 := by omega
      rw [hx, List.reverse_cons]
  | [b1, b2] => by
      intro h acc
      have hb1 : b1 < 256 := h b1 (by simp)
      have hb2 : b2 < 256 := h b2 (by simp)
      have e1 := b64Index_b64Char (b1 / 4) (by omega)
      have e2 := b64Index_b64Char (b1 % 4 * 16 + b2 / 16) (by omega)
      have e3 := b64Index_b64Char (b2 % 16 * 4) (by omega)
      have n1 := b64Char_ne_pad (b1 / 4) (by omega)
      have n2 := b64Char_ne_pad (b1 % 4 * 16 + b2 / 16) (by omega)
      have n3 := b64Char_ne_pad (b2 % 16 * 4) (by omega)
      show a2bBase64
          [b64Char (b1 / 4), b64Char (b1 % 4 * 16 + b2 / 16), b64Char (b2 % 16 * 4), '=']
          0 0 0 acc = some (acc.reverse ++ [b1, b2])
      rw [a2bBase64_data _ _ e1 n1]
      simp only []
      rw [a2bBase64_data _ _ e2 n2]
      simp only []
      rw [a2bBase64_data _ _ e3 n3]
      simp only []
      rw [a2bBase64_pad, if_pos (by omega), if_pos (by omega)]
      have hx1 : b1 / 4 * 4 + (b1 % 4 * 16 + b2 / 16) / 16 = b1 := by omega
      have hx2 : (b1 % 4 * 16 + b2 / 16) % 16 * 16 + b2 % 16 * 4 / 4 = b2 := by omega
      rw [hx1, hx2, List.reverse_cons, List.reverse_cons]
      simp
  | b1 :: b2 :: b3 :: rest => by
      intro h acc
      have hb1 : b1 < 256 := h b1 (by simp)
      have hb2 : b2 < 256 := h b2 (by simp)
      have hb3 : b3 < 256 := h b3 (by simp)
      have e1 := b64Index_b64Char (b1 / 4) (by omega)
      have e2 := b64Index_b64Char (b1 % 4 * 16 + b2 / 16) (by omega)
      have e3 := b64Index_b64Char (b2 % 16 * 4 + b3 / 64) (by omega)
      have e4 := b64Index_b64Char (b3 % 64) (by omega)
      have n1 := b64Char_ne_pad (b1 / 4) (by omega)
      have n2 := b64Char_ne_pad (b1 % 4 * 16 + b2 / 16) (by omega)
      have n3 := b64Char_ne_pad (b2 % 16 * 4 + b3 / 64) (by omega)
      have n4 := b64Char_ne_pad (b3 % 64) (by omega)
      have ih := a2bBase64_b64Encode rest (fun b hb => h b (by simp [hb]))
      show a2bBase64 (b64Char (b1 / 4) :: b64Char (b1 % 4 * 16 + b2 / 16) ::
          b64Char (b2 % 16 * 4 + b3 / 64) :: b64Char (b3 % 64) :: b64Encode rest)
          0 0 0 acc = some (acc.reverse ++ (b1 :: b2 :: b3 :: rest))
      rw [a2bBase64_data _ _ e1 n1]
      simp only []
      rw [a2bBase64_data _ _ e2 n2]
      simp only []
      rw [a2bBase64_data _ _ e3 n3]
      simp only []
      rw [a2bBase64_data _ _ e4 n4]
      simp only []
      rw [ih]
      have hx1 : b1 / 4 * 4 + (b1 % 4 * 16 + b2 / 16) / 16 = b1 := by omega
      have hx2 : (b1 % 4 * 16 + b2 / 16) % 16 * 16 + (b2 % 16 * 4 + b3 / 64) / 4 = b2 := by
        omega
      have hx3 : (b2 % 16 * 4 + b3 / 64) % 4 * 64 + b3 % 64 = b3 := by omega
      rw [hx1, hx2, hx3]
      simp

theorem b64decode_b64Encode (bs : List Nat) (h : ∀ b ∈ bs, b < 256) :
    b64decode (String.mk (b64Encode bs)) = some bs := by
  rw [b64decode, show (String.mk (b64Encode bs)).data = b64Encode bs from rfl,
    a2bBase64_b64Encode bs h []]
  rfl

theorem length_le_deflateStored : ∀ d : List Nat, d.length ≤ (deflateStored d).length
  | [] => by simp [deflateStored]
  | [b] => by simp [deflateStored]
  | b :: b2 :: rest => by
      have ih := length_le_deflateStored (b2 :: rest)
      simp only [deflateStored, List.length_cons] at ih ⊢
      omega

theorem inflateBlocks_deflateStored : ∀ (d : List Nat) (fuel : Nat), d.length < fuel →
    inflateBlocks fuel (deflateStored d) = some d
  | d, 0, h => absurd h (Nat.not_lt_zero _)
  | [], fuel + 1, _ => by
      show inflateBlocks (fuel + 1) [1, 0, 0, 255, 255] = some []
      simp [inflateBlocks]
  | [b], fuel + 1, _ => by
      show inflateBlocks (fuel + 1) [1, 1, 0, 254, 255, b] = some [b]
      simp [inflateBlocks]
  | b :: b2 :: rest, fuel + 1, hf => by
      have ih := inflateBlocks_deflateStored (b2 :: rest) fuel
        (by simp only [List.length_cons] at hf ⊢; omega)
      show inflateBlocks (fuel + 1)
          (0 :: 1 :: 0 :: 254 :: 255 :: b :: deflateStored (b2 :: rest)) =
        some (b :: b2 :: rest)
      simp [inflateBlocks, ih]

theorem inflateRaw_deflateStored (d : List Nat) : inflateRaw (deflateStored d) = some d := by
  have h := length_le_deflateStored d
  show inflateBlocks ((deflateStored d).length + 1) (deflateStored d) = some d
  exact inflateBlocks_deflateStored d _ (by omega)

set_option maxRecDepth 4096

theorem utf8DecodeList_one (b : Nat) (h : b < 128) (rest : List Nat) :
    utf8DecodeList (b :: rest) = (utf8DecodeList rest).map (b :: ·) := by
  rw [utf8DecodeList.eq_def]
  simp only []
  rw [if_pos h]

theorem utf8DecodeList_two (b b1 : Nat) (h1 : ¬ b < 128) (h2 : ¬ b < 192) (h3 : b < 224)
    (hc : 128 ≤ b1 ∧ b1 < 192) (hv : 128 ≤ (b - 192) * 64 + (b1 - 128)) (rest : List Nat) :
    utf8DecodeList (b :: b1 :: rest) =
      (utf8DecodeList rest).map (((b - 192) * 64 + (b1 - 128)) :: ·) := by
  rw [utf8DecodeList.eq_def]
  simp only []
  rw [if_neg h1, if_neg h2, if_pos h3, if_pos hc, if_pos hv]

theorem utf8DecodeList_three (b b1 b2 : Nat) (h1 : ¬ b < 128) (h2 : ¬ b < 192)
    (h3 : ¬ b < 224) (h4 : b < 240)
    (hc : (128 ≤ b1 ∧ b1 < 192) ∧ (128 ≤ b2 ∧ b2 < 192))
    (hv : 2048 ≤ (b - 224) * 4096 + (b1 - 128) * 64 + (b2 - 128) ∧
      ¬(55296 ≤ (b - 224) * 4096 + (b1 - 128) * 64 + (b2 - 128) ∧
        (b - 224) * 4096 + (b1 - 128) * 64 + (b2 - 128) ≤ 57343)) (rest : List Nat) :
    utf8DecodeList (b :: b1 :: b2 :: rest) =
      (utf8DecodeList rest).map (((b - 224) * 4096 + (b1 - 128) * 64 + (b2 - 128)) :: ·) := by
  rw [utf8DecodeList.eq_def]
  simp only []
  rw [if_neg h1, if_neg h2, if_neg h3, if_pos h4, if_pos hc, if_pos hv]

theorem utf8DecodeList_four (b b1 b2 b3 : Nat) (h1 : ¬ b < 128) (h2 : ¬ b < 192)
    (h3 : ¬ b < 224) (h4 : ¬ b < 240) (h5 : b < 248)
    (hc : (128 ≤ b1 ∧ b1 < 192) ∧ (128 ≤ b2 ∧ b2 < 192) ∧ (128 ≤ b3 ∧ b3 < 192))
    (hv : 65536 ≤ (b - 240) * 262144 + (b1 - 128) * 4096 + (b2 - 128) * 64 + (b3 - 128) ∧
      (b - 240) * 262144 + (b1 - 128) * 4096 + (b2 - 128) * 64 + (b3 - 128) < 1114112)
    (rest : List Nat) :
    utf8DecodeList (b :: b1 :: b2 :: b3 :: rest) =
      (utf8DecodeList rest).map
        (((b - 240) * 262144 + (b1 - 128) * 4096 + (b2 - 128) * 64 + (b3 - 128)) :: ·) := by
  rw [utf8DecodeList.eq_def]
  simp only []
  rw [if_neg h1, if_neg h2, if_neg h3, if_neg h4, if_pos h5, if_pos hc, if_pos hv]

theorem utf8EncodeChar_append_decode (c : Nat)
    (hv : c < 55296 ∨ (57343 < c ∧ c < 1114112)) (tail : List Nat) :
    utf8DecodeList (utf8EncodeChar c ++ tail) = (utf8DecodeList tail).map (c :: ·) := by
  have hmax : c < 1114112 := by rcases hv with h | h <;> omega
  by_cases h1 : c < 128
  · rw [show utf8EncodeChar c = [c] from by rw [utf8EncodeChar, if_pos h1],
      List.cons_append, List.nil_append, utf8DecodeList_one c h1 tail]
  · by_cases h2 : c < 2048
    · rw [show utf8EncodeChar c = [192 + c / 64, 128 + c % 64] from by
        rw [utf8EncodeChar, if_neg h1, if_pos h2]]
      simp only [List.cons_append, List.nil_append]
      rw [utf8DecodeList_two (192 + c / 64) (128 + c % 64)
        (by omega) (by omega) (by omega) (by omega) (by omega) tail]
      have he : (192 + c / 64 - 192) * 64 + (128 + c % 64 - 128) = c := by omega
      rw [he]
    · by_cases h3 : c < 65536
      · have hns : ¬(55296 ≤ c ∧ c ≤ 57343) := by rcases hv with h | h <;> omega
        rw [show utf8EncodeChar c = [224 + c / 4096, 128 + c / 64 % 64, 128 + c % 64] from by
          rw [utf8EncodeChar, if_neg h1, if_neg h2, if_pos h3]]
        simp only [List.cons_append, List.nil_append]
        have he : (224 + c / 4096 - 224) * 4096 + (128 + c / 64 % 64 - 128) * 64 +
            (128 + c % 64 - 128) = c := by omega
        rw [utf8DecodeList_three (224 + c / 4096) (128 + c / 64 % 64) (128 + c % 64)
          (by omega) (by omega) (by omega) (by omega) (by omega)
          (by rw [he]; exact ⟨by omega, hns⟩) tail]
        rw [he]
      · rw [show utf8EncodeChar c =
            [240 + c / 262144, 128 + c / 4096 % 64, 128 + c / 64 % 64, 128 + c % 64] from by
          rw [utf8EncodeChar, if_neg h1, if_neg h2, if_neg h3]]
        simp only [List.cons_append, List.nil_append]
        have he : (240 + c / 262144 - 240) * 262144 + (128 + c / 4096 % 64 - 128) * 4096 +
            (128 + c / 64 % 64 - 128) * 64 + (128 + c % 64 - 128) = c := by omega
        rw [utf8DecodeList_four (240 + c / 262144) (128 + c / 4096 % 64) (128 + c / 64 % 64)
          (128 + c % 64) (by omega) (by omega) (by omega) (by omega) (by omega) (by omega)
          (by rw [he]; omega) tail]
        rw [he]

theorem char_valid_ranges (c : Char) :
    c.toNat < 55296 ∨ (57343 < c.toNat ∧ c.toNat < 1114112) := by
  rcases c.valid with h | h
  · exact Or.inl h
  · exact Or.inr h

theorem utf8DecodeList_utf8Encode (cs : List Char) :
    utf8DecodeList (cs.foldr (fun c acc => utf8EncodeChar c.toNat ++ acc) []) =
      some (cs.map Char.toNat) := by
  induction cs with
  | nil => rfl
  | cons c rest ih =>
      rw [List.foldr_cons, utf8EncodeChar_append_decode c.toNat (char_valid_ranges c) _, ih]
      rfl

theorem utf8Decode_utf8Encode (s : String) : utf8Decode (utf8Encode s) = some s := by
  rw [utf8Decode, utf8Encode, utf8DecodeList_utf8Encode]
  simp only [Option.map_some']
  rw [List.map_map, show ((fun c => Char.ofNat c) ∘ fun c => Char.toNat c) =
    (fun c : Char => Char.ofNat c.toNat) from rfl]
  rw [show (s.data.map fun c : Char => Char.ofNat c.toNat) = s.data.map id from
    List.map_congr_left (fun c _ => Char.ofNat_toNat c), List.map_id]

theorem utf8EncodeChar_lt_256 (c : Nat) (h : c < 1114112) :
    ∀ b ∈ utf8EncodeChar c, b < 256 := by
  intro b hb
  rw [utf8EncodeChar] at hb
  split_ifs at hb with h1 h2 h3
  · simp only [List.mem_singleton] at hb; omega
  · simp only [List.mem_cons, List.not_mem_nil, or_false] at hb
    rcases hb with rfl | rfl <;> omega
  · simp only [List.mem_cons, List.not_mem_nil, or_false] at hb
    rcases hb with rfl | rfl | rfl <;> omega
  · simp only [List.mem_cons, List.not_mem_nil, or_false] at hb
    rcases hb with rfl | rfl | rfl | rfl <;> omega

theorem utf8Encode_lt_256 (s : String) : ∀ b ∈ utf8Encode s, b < 256 := by
  rw [utf8Encode]
  induction s.data with
  | nil => intro b hb; cases hb
  | cons c rest ih =>
      intro b hb
      rw [List.foldr_cons] at hb
      rcases List.mem_append.mp hb with hb | hb
      · have hc : c.toNat < 1114112 := by
          rcases char_valid_ranges c with h | h
          · omega
          · exact h.2
        exact utf8EncodeChar_lt_256 c.toNat hc b hb
      · exact ih b hb

theorem deflateStored_lt_256 : ∀ (d : List Nat), (∀ b ∈ d, b < 256) →
    ∀ x ∈ deflateStored d, x < 256
  | [] => by
      intro _ x hx
      simp only [deflateStored, List.mem_cons, List.not_mem_nil, or_false] at hx
      rcases hx with rfl | rfl | rfl | rfl | rfl <;> omega
  | [b] => by
      intro h x hx
      have hb : b < 256 := h b (by simp)
      simp only [deflateStored, List.mem_cons, List.not_mem_nil, or_false] at hx
      rcases hx with rfl | rfl | rfl | rfl | rfl | rfl <;> omega
  | b :: b2 :: rest => by
      intro h x hx
      have hb : b < 256 := h b (by simp)
      simp only [deflateStored, List.mem_cons] at hx
      rcases hx with rfl | rfl | rfl | rfl | rfl | rfl | hx
      · omega
      · omega
      · omega
      · omega
      · omega
      · omega
      · exact deflateStored_lt_256 (b2 :: rest) (fun y hy => h y (by simp [hy])) x hx

/-- Claim C8: decoding the compressed encoding of any text — base64 of a
raw-deflate (stored-block) compression of its UTF-8 bytes — through the
`SAMLRequest` conversion recovers the text exactly. -/
theorem decode_compressed_round_trip (s : String) :
    convert_saml_request_redirect (String.mk (b64Encode (deflateStored (utf8Encode s)))) =
      some s := by
  have hlt : ∀ b ∈ deflateStored (utf8Encode s), b < 256 :=
    deflateStored_lt_256 _ (utf8Encode_lt_256 s)
  rw [convert_saml_request_redirect, b64decode_b64Encode _ hlt, Option.some_bind,
    inflateRaw_deflateStored, Option.some_bind, utf8Decode_utf8Encode]

end Testenv
